import Mathlib

/-!
# taro-bot: configuration store, plugin registry and command arguments

A shallow embedding of

* `bot/config.go`   : `Config`, `GuildConfig`, `GuildContext`, `SetPrefix` and the
  prefix-cache step of `LoadConfig`;
* `plugins/meta.go` : `ClearJobs`, `RegisterJobs`, `RegisterAll`;
* `commandargs.go`  : `checkArgExists`, `ParseStringArg`, `ParseUserArg`.

Conventions.  The package-level variables (`bot.C`, `bot.Jobs`, ...) become explicit
state that every operation takes and returns.  `Config.Run` holds the mutex around its
argument, so one call is one atomic step and the mutex itself has no field here.
`int64` guild ids are never computed with and are plain `Int`; the `int` position of
`commandargs.go` is decremented and incremented, so it wraps at 64 bits.
-/

namespace Taro

/-! ## Errors -/

/-- The value of `err.Error()` for an error returned by `strconv.ParseInt`.  The rendered
text (which quotes the input) is not modelled; the record keeps what it is built from. -/
structure NumError where
  Func : String
  Num : String
  Err : String
  deriving DecidableEq

/-- Text handed to an error constructor: a literal, or the rendering of a `NumError`. -/
inductive ErrText where
  | lit (s : String)
  | ofNumError (e : NumError)
  deriving DecidableEq

/-- A `*TaroError`.  The type and its constructors `GenericError(fn, action, err)` and
`GenericSyntaxError(fn, input, reason)` are declared outside the files embedded here; a
value records which constructor was called and with which arguments. -/
inductive TaroError where
  | GenericError (fn action err : String)
  | GenericSyntaxError (fn input : String) (reason : ErrText)
  deriving DecidableEq

/-! ## bot/config.go -/

section ConfigStore

/-- The field types `PermissionGroups`, `ActiveTopicVote` and `StarboardConfig` are
declared elsewhere in package `bot`; they are parameters of the embedding. -/
structure GuildConfig (PermissionGroups ActiveTopicVote StarboardConfig : Type) where
  ID : Int
  Prefix : String
  Permissions : PermissionGroups
  ArchiveRole : Int
  ArchiveCategory : Int
  EnabledTopicChannels : List Int
  ActiveTopicVotes : List ActiveTopicVote
  TopicVoteThreshold : Int
  TopicVoteEmoji : String
  Starboard : StarboardConfig
  deriving DecidableEq

/-- A `map[int64]string` as a finite partial function. -/
abbrev PrefixMap := Int → Option String

/-- The result of `make(map[int64]string, 0)`. -/
def PrefixMap.empty : PrefixMap := fun _ => none

/-- The assignment `m[k] = v`. -/
def PrefixMap.set (m : PrefixMap) (k : Int) (v : String) : PrefixMap :=
  fun k' => if k' = k then some v else m k'

/-- The struct `Config` without its `Mutex`.  `PrefixCache` is an allocated map:
`LoadConfig`, the first call of `main`, always replaces it by a fresh one. -/
structure Config (PermissionGroups ActiveTopicVote StarboardConfig : Type) where
  PrefixCache : PrefixMap
  BotToken : String
  ActivityName : String
  ActivityUrl : String
  ActivityType : Nat
  OperatorChannel : Int
  OperatorIDs : List Int
  OperatorAliases : String → Option (List String)
  GuildConfigs : List (GuildConfig PermissionGroups ActiveTopicVote StarboardConfig)

variable {P A S : Type}

/-- The variable `DefaultPrefix`. -/
def DefaultPrefix : String := "."

/-- The type `guildOperation`: `func(*GuildConfig) (*GuildConfig, string)`.  The operation
receives a copy and returns the value to store together with its name. -/
abbrev guildOperation (P A S : Type) := GuildConfig P A S → GuildConfig P A S × String

/-- The `for n, guild := range c.GuildConfigs` loop of `GuildContext`: at the first entry
whose `ID` is `id` it stores the result of `g` in that slot and breaks, returning the
updated slice and the name to log; `none` when the loop ends with `found == false`. -/
def GuildContext.scan (id : Int) (g : guildOperation P A S) :
    List (GuildConfig P A S) → Option (List (GuildConfig P A S) × String)
  | [] => none
  | guild :: rest =>
    if guild.ID = id then
      some ((g guild).1 :: rest, (g guild).2)
    else
      match GuildContext.scan id g rest with
      | some (rest', fnName) => some (guild :: rest', fnName)
      | none => none

/-- The literal `GuildConfig{ID: id, Prefix: DefaultPrefix}`: every other field has its
zero value (`default` for the parameter types). -/
def defaultConfig [Inhabited P] [Inhabited S] (id : Int) : GuildConfig P A S :=
  { ID := id, Prefix := DefaultPrefix, Permissions := default, ArchiveRole := 0,
    ArchiveCategory := 0, EnabledTopicChannels := [], ActiveTopicVotes := [],
    TopicVoteThreshold := 0, TopicVoteEmoji := "", Starboard := default }

/-- The function `GuildContext(c, g)` as one atomic step on the store.  The second
component is what the call logs: `some fnName` for the `Execute: ..ms (fnName)` line of
the found branch (the elapsed time is not modelled), `none` for the not-found branch,
which logs nothing. -/
def GuildContext [Inhabited P] [Inhabited S] (id : Int) (g : guildOperation P A S)
    (c : Config P A S) : Config P A S × Option String :=
  match GuildContext.scan id g c.GuildConfigs with
  | some (guilds, fnName) => ({ c with GuildConfigs := guilds }, some fnName)
  | none =>
    let c1 := { c with PrefixCache := c.PrefixCache.set id DefaultPrefix }
    let res := (g (defaultConfig id)).1
    ({ c1 with GuildConfigs := c1.GuildConfigs ++ [res] }, none)

/-- The call `strings.ReplaceAll(s, " ", "")`: every space is dropped. -/
def removeSpaces (s : String) : String :=
  String.mk (s.data.filter (fun ch => ch ≠ ' '))

/-- The guild operation `SetPrefix` passes to `GuildContext`: `g.Prefix = p; return g, fnName`. -/
def setPrefixOp (fnName p : String) : guildOperation P A S :=
  fun g => ({ g with Prefix := p }, fnName)

/-- The function `SetPrefix(fnName, id, p)`: the returned pair `(string, error)` and the
store afterwards. -/
def SetPrefix [Inhabited P] [Inhabited S] (fnName : String) (id : Int) (p : String)
    (c : Config P A S) : (String × Option TaroError) × Config P A S :=
  let p := removeSpaces p
  if p.utf8ByteSize = 0 then
    (("", some (TaroError.GenericError fnName "getting prefix" "prefix is empty")), c)
  else
    let c1 := { c with PrefixCache := c.PrefixCache.set id p }
    let c2 := (GuildContext id (setPrefixOp fnName p) c1).1
    ((p, none), c2)

/-- The body of the `for _, g := range c.GuildConfigs` loop of `LoadConfig`, run over a
slice from a given map. -/
def loadPrefixes (m : PrefixMap) : List (GuildConfig P A S) → PrefixMap
  | [] => m
  | g :: rest => loadPrefixes (m.set g.ID g.Prefix) rest

/-- The prefix-cache step of `LoadConfig`, applied to the `Config` that `json.Unmarshal`
filled in: a fresh map, then one entry per guild config. -/
def loadPrefixCache (c : Config P A S) : Config P A S :=
  { c with PrefixCache := loadPrefixes PrefixMap.empty c.GuildConfigs }

/-- A store with no guilds and the given scalar settings, as loaded from a configuration
file without `guild_configs`. -/
def emptyStore (token : String) : Config P A S :=
  { PrefixCache := PrefixMap.empty, BotToken := token, ActivityName := "", ActivityUrl := "",
    ActivityType := 0, OperatorChannel := 0, OperatorIDs := [], OperatorAliases := fun _ => none,
    GuildConfigs := [] }

/-- Prefix cache consistency: the cache maps the id of every stored guild config to the
prefix stored in it. -/
def CacheConsistent (c : Config P A S) : Prop :=
  ∀ g ∈ c.GuildConfigs, c.PrefixCache g.ID = some g.Prefix

/-- At most one guild config per id. -/
def UniqueIDs (gs : List (GuildConfig P A S)) : Prop :=
  (gs.map (fun g => g.ID)).Nodup

/-- The guild operation returns a config with the `ID` of the one it was given. -/
def keepsID (m : guildOperation P A S) : Prop := ∀ x, (m x).1.ID = x.ID

/-- The guild operation returns a config with the `Prefix` of the one it was given. -/
def keepsPrefix (m : guildOperation P A S) : Prop := ∀ x, (m x).1.Prefix = x.Prefix

/-- A sequence of `GuildContext` calls, run in order. -/
def runContexts [Inhabited P] [Inhabited S] :
    List (Int × guildOperation P A S) → Config P A S → Config P A S
  | [], c => c
  | op :: rest, c => runContexts rest (GuildContext op.1 op.2 c).1

/-- A loaded store holding the default configs of guilds 7 and 42. -/
def twoGuildStore : Config Unit Unit Unit :=
  loadPrefixCache
    { (emptyStore "token" : Config Unit Unit Unit) with
      GuildConfigs := [defaultConfig 7, defaultConfig 42] }

/-- An empty loaded store for a bot whose plugin sub-documents carry no data. -/
def freshStore : Config Unit Unit Unit := loadPrefixCache (emptyStore "token")

/-- A guild operation that stores another id: `g.ID = n; return g, "renumber"`. -/
def renumber (n : Int) : guildOperation P A S :=
  fun g => ({ g with ID := n }, "renumber")

/-- A guild operation that touches neither id nor prefix:
`g.ArchiveRole = r; return g, "archive"`. -/
def setArchiveRole (r : Int) : guildOperation P A S :=
  fun g => ({ g with ArchiveRole := r }, "archive")

end ConfigStore

/-! ## plugins/meta.go -/

section Registry

/-- The fields of `bot.JobInfo` that `meta.go` reads (the type is declared in package
`bot`).  `Fn` is the job function, kept abstract.  The `Scheduler` field of every job is
a handle on the one process-wide `bot.Scheduler` that `main` starts, which is a
component of the registry state below. -/
structure JobInfo (Fn : Type) where
  Fn : Fn
  Tag : String
  CheckCondition : Bool
  Condition : Bool
  deriving DecidableEq

/-- The two calls `meta.go` makes on the external scheduler, over a scheduler state `σ`:
`RemoveByTag(tag)` returns an error or nothing, `Tag(tag).Do(fn)` returns the registered
job or an error; both may change the scheduler. -/
structure SchedulerAPI (σ Fn Job : Type) where
  RemoveByTag : String → σ → Option String × σ
  TagDo : String → Fn → σ → Except String Job × σ

/-- The lines `RegisterJobs` prints with `log.Printf`. -/
inductive LogLine (Job : Type) where
  | failedToRegister (tag err : String)
  | registered (rJob : Job)
  deriving DecidableEq

/-- The package-level variables `bot.Commands`, `bot.Responses`, `bot.Jobs` and the state
of `bot.Scheduler`.  `CommandInfo` and `ResponseInfo` are declared in package `bot` and are
parameters here. -/
structure Registry (Cmd Resp Fn σ : Type) where
  Commands : List Cmd
  Responses : List Resp
  Jobs : List (JobInfo Fn)
  Scheduler : σ
  deriving DecidableEq

variable {Cmd Resp Fn Job σ : Type}

/-- The loop of `ClearJobs`: `RemoveByTag` for every job in order, the error discarded. -/
def ClearJobs.loop (api : SchedulerAPI σ Fn Job) : List (JobInfo Fn) → σ → σ
  | [], s => s
  | job :: rest, s => ClearJobs.loop api rest (api.RemoveByTag job.Tag s).2

/-- The function `ClearJobs()`. -/
def ClearJobs (api : SchedulerAPI σ Fn Job) (b : Registry Cmd Resp Fn σ) :
    Registry Cmd Resp Fn σ :=
  { b with Scheduler := ClearJobs.loop api b.Jobs b.Scheduler, Jobs := [] }

/-- The loop of `RegisterJobs`: the scheduler afterwards and the lines logged. -/
def RegisterJobs.loop (api : SchedulerAPI σ Fn Job) :
    List (JobInfo Fn) → σ → σ × List (LogLine Job)
  | [], s => (s, [])
  | job :: rest, s =>
    if !job.CheckCondition || job.Condition then
      match api.TagDo job.Tag job.Fn s with
      | (Except.error err, s1) =>
        ((RegisterJobs.loop api rest s1).1,
          LogLine.failedToRegister job.Tag err :: (RegisterJobs.loop api rest s1).2)
      | (Except.ok rJob, s1) =>
        ((RegisterJobs.loop api rest s1).1,
          LogLine.registered rJob :: (RegisterJobs.loop api rest s1).2)
    else
      RegisterJobs.loop api rest s

/-- The function `RegisterJobs()`. -/
def RegisterJobs (api : SchedulerAPI σ Fn Job) (b : Registry Cmd Resp Fn σ) :
    Registry Cmd Resp Fn σ × List (LogLine Job) :=
  ({ b with Scheduler := (RegisterJobs.loop api b.Jobs b.Scheduler).1 },
    (RegisterJobs.loop api b.Jobs b.Scheduler).2)

/-- What the registration callbacks of a plugin selection contribute. -/
structure Loaded (Cmd Resp Fn : Type) where
  Commands : List Cmd
  Responses : List Resp
  Jobs : List (JobInfo Fn)

/-- Modelled from the spec: the function `Load(dir, pluginList)` is not among the
embedded files.  Each selected plugin's registration callback appends to the active
commands and responders and declares jobs; what a selection contributes is the fixed
function `plugins` of `dir` and `pluginList`. -/
def Load (plugins : String → String → Loaded Cmd Resp Fn) (dir pluginList : String)
    (b : Registry Cmd Resp Fn σ) : Registry Cmd Resp Fn σ :=
  { b with
    Commands := b.Commands ++ (plugins dir pluginList).Commands
    Responses := b.Responses ++ (plugins dir pluginList).Responses
    Jobs := b.Jobs ++ (plugins dir pluginList).Jobs }

/-- The function `RegisterAll(dir, pluginList)`, one atomic step under `bot.Mutex`. -/
def RegisterAll (api : SchedulerAPI σ Fn Job) (plugins : String → String → Loaded Cmd Resp Fn)
    (dir pluginList : String) (b : Registry Cmd Resp Fn σ) :
    Registry Cmd Resp Fn σ × List (LogLine Job) :=
  let b1 := { b with Commands := [], Responses := [] }
  let b2 := ClearJobs api b1
  let b3 := Load plugins dir pluginList b2
  RegisterJobs api b3

/-- An instrumented scheduler: it behaves as `api` and also records, in order, the
arguments of every `Tag(tag).Do(fn)` call it receives. -/
def SchedulerAPI.traced (api : SchedulerAPI σ Fn Job) :
    SchedulerAPI (σ × List (String × Fn)) Fn Job where
  RemoveByTag := fun tag s => ((api.RemoveByTag tag s.1).1, ((api.RemoveByTag tag s.1).2, s.2))
  TagDo := fun tag fn s =>
    ((api.TagDo tag fn s.1).1, ((api.TagDo tag fn s.1).2, s.2 ++ [(tag, fn)]))

/-- Modelled from the spec: the external scheduler, which is not part of the repository,
as the collection of the tagged jobs it holds.  Removal by tag (`removeByTag`) drops the
jobs under the tag; a registration (`scheduleTagged`) puts the job under its tag,
replacing any prior schedule sharing that tag.  The spec fixes no error, so removal and
registration report none here. -/
def taggedScheduler : SchedulerAPI (List (String × Fn)) Fn (String × Fn) where
  RemoveByTag := fun tag s => (none, s.filter (fun e => e.1 ≠ tag))
  TagDo := fun tag fn s => (Except.ok (tag, fn), s.filter (fun e => e.1 ≠ tag) ++ [(tag, fn)])

/-- Modelled from the spec: the contract of the external scheduler on a collection of
tagged jobs, whatever it returns or reports.  Removal by tag drops the jobs under the tag;
a registration either puts the job under its tag, replacing any prior schedule sharing
that tag, or fails and leaves the collection as it was. -/
def tagKeyed (api : SchedulerAPI (List (String × Fn)) Fn Job) : Prop :=
  (∀ tag s, (api.RemoveByTag tag s).2 = s.filter (fun e => decide (e.1 ≠ tag))) ∧
  (∀ tag fn s,
    (api.TagDo tag fn s).2 = s.filter (fun e => decide (e.1 ≠ tag)) ++ [(tag, fn)] ∨
    (api.TagDo tag fn s).2 = s)

/-- The test of `RegisterJobs`: `!job.CheckCondition || job.Condition`. -/
def JobInfo.passes (job : JobInfo Fn) : Bool := !job.CheckCondition || job.Condition

/-- The call `Tag(job.Tag).Do(job.Fn)` that `RegisterJobs` makes for a job. -/
def JobInfo.call (job : JobInfo Fn) : String × Fn := (job.Tag, job.Fn)

/-- Every job the scheduler holds carries the tag of an entry of `Jobs`: the scheduler
holds nothing but what the registry put there. -/
def ownsScheduled (b : Registry Cmd Resp Fn (List (String × Fn))) : Prop :=
  ∀ e ∈ b.Scheduler, ∃ j ∈ b.Jobs, j.Tag = e.1

/-- A scheduler on which every registration fails. -/
def failingScheduler : SchedulerAPI Unit Nat Unit where
  RemoveByTag := fun _ s => (some "no jobs found with given tag", s)
  TagDo := fun _ _ s => (Except.error "scheduler is closed", s)

/-- Three declared jobs: unconditional, condition met, condition not met. -/
def sampleJobs : List (JobInfo Nat) :=
  [{ Fn := 1, Tag := "tick", CheckCondition := false, Condition := false },
   { Fn := 2, Tag := "sync", CheckCondition := true, Condition := true },
   { Fn := 3, Tag := "purge", CheckCondition := true, Condition := false }]

/-- A registry holding `sampleJobs`, over the instrumented failing scheduler. -/
def sampleRegistry : Registry String String Nat (Unit × List (String × Nat)) :=
  { Commands := [], Responses := [], Jobs := sampleJobs, Scheduler := ((), []) }

end Registry

/-! ## commandargs.go -/

section CommandArgs

/-- The value a 64-bit `int` holds after an arithmetic result `x`: two's complement
wrap-around. -/
def wrapInt (x : Int) : Int := (x + 9223372036854775808) % 18446744073709551616 - 9223372036854775808

/-- The index expression `a[i]`; `none` stands for the run-time panic of an index out of
range. -/
def index (a : List String) (i : Int) : Option String :=
  if 0 ≤ i then a.get? i.toNat else none

/-- The call `strconv.Itoa(i)`. -/
def Itoa (i : Int) : String := toString i

/-- The function `checkArgExists(a, pos, fn)`.  The outer `Option` is `none` when the call
panics; otherwise the pair `(s, err)` it returns. -/
def checkArgExists (a : List String) (pos : Int) (fn : String) :
    Option (String × Option TaroError) :=
  let pos1 := wrapInt (pos - 1)
  let pos2 := if pos1 < 0 then 1 else pos1
  if (a.length : Int) > pos2 then
    match index a pos2 with
    | some s => some (s, none)
    | none => none
  else
    let pos3 := wrapInt (pos2 + 1)
    some ("", some (TaroError.GenericError fn ("getting arg " ++ Itoa pos3) "arg is missing"))

/-- The function `ParseStringArg(a, pos, toLower)`; `ToLower` stands for the library
function `strings.ToLower`. -/
def ParseStringArg (ToLower : String → String) (a : List String) (pos : Int) (toLower : Bool) :
    Option (String × Option TaroError) :=
  match checkArgExists a pos "ParseStringArg" with
  | none => none
  | some (_, some argErr) => some ("", some argErr)
  | some (s, none) => if toLower then some (ToLower s, none) else some (s, none)

/-- The digit loop of `strconv.ParseUint(s, 10, 64)` from an accumulated value: a byte
that is no decimal digit is a syntax error, a value above `2^64 - 1` a range error. -/
def ParseUint.loop : List Char → Nat → Except String Nat
  | [], n => Except.ok n
  | c :: cs, n =>
    if 48 ≤ c.toNat ∧ c.toNat ≤ 57 then
      if n * 10 + (c.toNat - 48) > 18446744073709551615 then
        Except.error "value out of range"
      else
        ParseUint.loop cs (n * 10 + (c.toNat - 48))
    else
      Except.error "invalid syntax"

/-- The call `strconv.ParseUint(s, 10, 64)`, with the kind of error it reports. -/
def ParseUint (s : List Char) : Except String Nat :=
  match s with
  | [] => Except.error "invalid syntax"
  | _ => ParseUint.loop s 0

/-- The call `strconv.ParseInt(s, 10, 64)`: an optional sign, then `ParseUint`, then the
range check against `2^63`. -/
def ParseInt (s : String) : Except NumError Int :=
  match s.data with
  | [] => Except.error { Func := "ParseInt", Num := s, Err := "invalid syntax" }
  | c :: cs =>
    let neg : Bool := c = '-'
    let body := if c = '+' ∨ c = '-' then cs else c :: cs
    match ParseUint body with
    | Except.error kind => Except.error { Func := "ParseInt", Num := s, Err := kind }
    | Except.ok un =>
      if neg = false ∧ un ≥ 9223372036854775808 then
        Except.error { Func := "ParseInt", Num := s, Err := "value out of range" }
      else if neg = true ∧ un > 9223372036854775808 then
        Except.error { Func := "ParseInt", Num := s, Err := "value out of range" }
      else
        Except.ok (if neg then -(un : Int) else (un : Int))

/-- Drops the longest run of decimal digits at the head: the `[0-9]+` of `pingRegex`,
once a first digit is known to be there. -/
def dropDigits : List Char → List Char
  | [] => []
  | c :: cs => if 48 ≤ c.toNat ∧ c.toNat ≤ 57 then dropDigits cs else c :: cs

/-- The `!?` of `pingRegex`: one `!` is consumed when it is there. -/
def pingRegex.optionalBang : List Char → List Char
  | '!' :: r => r
  | r => r

/-- Whether `<@!?[0-9]+>` matches at the head of the text. -/
def pingRegex.matchHere (s : List Char) : Bool :=
  match s with
  | '<' :: '@' :: rest =>
    match pingRegex.optionalBang rest with
    | d :: more =>
      if 48 ≤ d.toNat ∧ d.toNat ≤ 57 then
        match dropDigits more with
        | '>' :: _ => true
        | _ => false
      else false
    | [] => false
  | _ => false

/-- Whether `<@!?[0-9]+>` matches somewhere in the text, searched from each position. -/
def pingRegex.search : List Char → Bool
  | [] => false
  | c :: cs => pingRegex.matchHere (c :: cs) || pingRegex.search cs

/-- The call `pingRegex.MatchString(s)` for the unanchored pattern `<@!?[0-9]+>`. -/
def pingRegex.MatchString (s : String) : Bool := pingRegex.search s.data

/-- The call `mentionFormats.ReplaceAllString(s, "")` for the class `[<@!#&>]`: every
character of the class is dropped. -/
def mentionFormats.ReplaceAllString (s : String) : String :=
  String.mk (s.data.filter (fun c => ¬ (c = '<' ∨ c = '@' ∨ c = '!' ∨ c = '#' ∨ c = '&' ∨ c = '>')))

/-- The function `ParseUserArg(a, pos)`; the outer `Option` is `none` for a panic. -/
def ParseUserArg (a : List String) (pos : Int) : Option (Int × Option TaroError) :=
  match checkArgExists a pos "ParseUserArg" with
  | none => none
  | some (_, some argErr) => some (-1, some argErr)
  | some (s, none) =>
    if pingRegex.MatchString s then
      match ParseInt (mentionFormats.ReplaceAllString s) with
      | Except.error err =>
        some (-1, some (TaroError.GenericSyntaxError "ParseUserArg" s (ErrText.ofNumError err)))
      | Except.ok i => some (i, none)
    else
      some (-1, some (TaroError.GenericSyntaxError "ParseUserArg" s
        (ErrText.lit "expected user mention")))

/-- The value of a run of decimal digits. -/
def digitsValue (ds : List Char) : Nat :=
  ds.foldl (fun acc c => acc * 10 + (c.toNat - 48)) 0

/-- Whether a character is one of `0` .. `9`. -/
def isDecimalDigit (c : Char) : Bool := decide (48 ≤ c.toNat ∧ c.toNat ≤ 57)

/-- A single user mention as C10 words it, stated independently of the code: the whole
argument is `<@N>` or `<@!N>` with `N` a non-empty run of decimal digits; the result is
the number `N`, and `none` when the argument has no such form. -/
def userMentionID (s : String) : Option Nat :=
  match s.data with
  | '<' :: '@' :: rest =>
    let body := pingRegex.optionalBang rest
    if body.takeWhile isDecimalDigit ≠ [] ∧ body.dropWhile isDecimalDigit = ['>'] then
      some (digitsValue (body.takeWhile isDecimalDigit))
    else none
  | _ => none

end CommandArgs

end Taro


namespace Taro

section ConfigTheorems

variable {P A S : Type}

theorem scan_none_of_absent (id : Int) (g : guildOperation P A S) (gs : List (GuildConfig P A S))
    (h : ∀ x ∈ gs, x.ID ≠ id) : GuildContext.scan id g gs = none := by
  induction gs with
  | nil => rfl
  | cons x rest ih =>
    have hx : x.ID ≠ id := h x (List.mem_cons_self _ _)
    have hr : ∀ y ∈ rest, y.ID ≠ id := fun y hy => h y (List.mem_cons_of_mem _ hy)
    simp [GuildContext.scan, hx, ih hr]

theorem scan_first (id : Int) (g : guildOperation P A S)
    (pre : List (GuildConfig P A S)) (x : GuildConfig P A S) (post : List (GuildConfig P A S))
    (hx : x.ID = id) (hpre : ∀ y ∈ pre, y.ID ≠ id) :
    GuildContext.scan id g (pre ++ x :: post) = some (pre ++ (g x).1 :: post, (g x).2) := by
  induction pre with
  | nil => simp [GuildContext.scan, hx]
  | cons y rest ih =>
    have hy : y.ID ≠ id := hpre y (List.mem_cons_self _ _)
    have hr : ∀ z ∈ rest, z.ID ≠ id := fun z hz => hpre z (List.mem_cons_of_mem _ hz)
    simp [GuildContext.scan, hy, ih hr]

theorem exists_first_with_id (id : Int) (gs : List (GuildConfig P A S))
    (h : ∃ x ∈ gs, x.ID = id) :
    ∃ pre x post, gs = pre ++ x :: post ∧ x.ID = id ∧ ∀ y ∈ pre, y.ID ≠ id := by
  induction gs with
  | nil => obtain ⟨x, hx, _⟩ := h; cases hx
  | cons y rest ih =>
    by_cases hy : y.ID = id
    · exact ⟨[], y, rest, rfl, hy, fun z hz => by cases hz⟩
    · have h2 : ∃ x ∈ rest, x.ID = id := by
        obtain ⟨x, hx, hxid⟩ := h
        rcases List.mem_cons.mp hx with rfl | hmem
        · exact absurd hxid hy
        · exact ⟨x, hmem, hxid⟩
      obtain ⟨pre, x, post, hsplit, hxid, hpre⟩ := ih h2
      refine ⟨y :: pre, x, post, by simp [hsplit], hxid, ?_⟩
      intro z hz
      rcases List.mem_cons.mp hz with rfl | hmem
      · exact hy
      · exact hpre z hmem

theorem GuildContext_found [Inhabited P] [Inhabited S] (id : Int) (g : guildOperation P A S)
    (c : Config P A S) (pre : List (GuildConfig P A S)) (x : GuildConfig P A S)
    (post : List (GuildConfig P A S)) (hsplit : c.GuildConfigs = pre ++ x :: post)
    (hx : x.ID = id) (hpre : ∀ y ∈ pre, y.ID ≠ id) :
    GuildContext id g c = ({ c with GuildConfigs := pre ++ (g x).1 :: post }, some (g x).2) := by
  unfold GuildContext
  rw [hsplit, scan_first id g pre x post hx hpre]

theorem GuildContext_absent [Inhabited P] [Inhabited S] (id : Int) (g : guildOperation P A S)
    (c : Config P A S) (h : ∀ x ∈ c.GuildConfigs, x.ID ≠ id) :
    GuildContext id g c =
      ({ c with PrefixCache := c.PrefixCache.set id DefaultPrefix
                GuildConfigs := c.GuildConfigs ++ [(g (defaultConfig id)).1] }, none) := by
  unfold GuildContext
  rw [scan_none_of_absent id g c.GuildConfigs h]

theorem GuildContext_keeps_unique [Inhabited P] [Inhabited S] (id : Int)
    (m : guildOperation P A S) (c : Config P A S) (hm : keepsID m)
    (hu : UniqueIDs c.GuildConfigs) : UniqueIDs (GuildContext id m c).1.GuildConfigs := by
  by_cases h : ∃ x ∈ c.GuildConfigs, x.ID = id
  · obtain ⟨pre, x, post, hsplit, hx, hpre⟩ := exists_first_with_id id c.GuildConfigs h
    rw [GuildContext_found id m c pre x post hsplit hx hpre]
    unfold UniqueIDs at hu ⊢
    rw [hsplit] at hu
    simpa [hm x] using hu
  · have habs : ∀ x ∈ c.GuildConfigs, x.ID ≠ id := fun x hx hxid => h ⟨x, hx, hxid⟩
    rw [GuildContext_absent id m c habs]
    unfold UniqueIDs at hu ⊢
    simp only [List.map_append, List.map_cons, List.map_nil]
    rw [List.nodup_append]
    refine ⟨hu, List.nodup_singleton _, ?_⟩
    intro a ha hb
    rw [List.mem_singleton] at hb
    rw [hb, hm (defaultConfig id)] at ha
    obtain ⟨y, hy, hyid⟩ := List.mem_map.mp ha
    exact habs y hy hyid

theorem runContexts_keeps_unique [Inhabited P] [Inhabited S]
    (ops : List (Int × guildOperation P A S)) (c : Config P A S)
    (hops : ∀ op ∈ ops, keepsID op.2) (hu : UniqueIDs c.GuildConfigs) :
    UniqueIDs (runContexts ops c).GuildConfigs := by
  induction ops generalizing c with
  | nil => exact hu
  | cons op rest ih =>
    have h1 : keepsID op.2 := hops op (List.mem_cons_self _ _)
    have h2 : ∀ o ∈ rest, keepsID o.2 := fun o ho => hops o (List.mem_cons_of_mem _ ho)
    exact ih (GuildContext op.1 op.2 c).1 h2 (GuildContext_keeps_unique op.1 op.2 c h1 hu)

/-- C7 (found-branch write-back): when `GuildConfigs` contains an entry with id `g`,
`GuildContext g m` replaces the first such entry by what `m` returns for it, in the same
slot; every other entry, the length and `PrefixCache` (indeed every other field of the
store) are unchanged, and the call logs the name `m` returned, which only the found
branch does. -/
theorem GuildContext_found_writes_back [Inhabited P] [Inhabited S] (g : Int)
    (m : guildOperation P A S) (c : Config P A S) (h : ∃ x ∈ c.GuildConfigs, x.ID = g) :
    ∃ pre x post, c.GuildConfigs = pre ++ x :: post ∧ x.ID = g ∧ (∀ y ∈ pre, y.ID ≠ g) ∧
      GuildContext g m c = ({ c with GuildConfigs := pre ++ (m x).1 :: post }, some (m x).2) ∧
      (GuildContext g m c).1.GuildConfigs.length = c.GuildConfigs.length ∧
      (GuildContext g m c).1.PrefixCache = c.PrefixCache := by
  obtain ⟨pre, x, post, hsplit, hx, hpre⟩ := exists_first_with_id g c.GuildConfigs h
  refine ⟨pre, x, post, hsplit, hx, hpre, GuildContext_found g m c pre x post hsplit hx hpre, ?_, ?_⟩
  · rw [GuildContext_found g m c pre x post hsplit hx hpre, hsplit]
    simp
  · rw [GuildContext_found g m c pre x post hsplit hx hpre]

/-- Witness for C7: a store holding guilds 7 and 42, and an operation on guild 42. -/
theorem GuildContext_found_writes_back_witness :
    (∃ x ∈ twoGuildStore.GuildConfigs, x.ID = 42) ∧
    ∃ pre x post, twoGuildStore.GuildConfigs = pre ++ x :: post ∧ x.ID = 42 ∧
      (∀ y ∈ pre, y.ID ≠ 42) ∧
      GuildContext 42 (setArchiveRole 5) twoGuildStore =
        ({ twoGuildStore with GuildConfigs := pre ++ (setArchiveRole 5 x).1 :: post },
          some (setArchiveRole 5 x).2) ∧
      (GuildContext 42 (setArchiveRole 5) twoGuildStore).1.GuildConfigs.length =
        twoGuildStore.GuildConfigs.length ∧
      (GuildContext 42 (setArchiveRole 5) twoGuildStore).1.PrefixCache =
        twoGuildStore.PrefixCache :=
  ⟨⟨defaultConfig 42, by simp [twoGuildStore, loadPrefixCache], rfl⟩,
    GuildContext_found_writes_back 42 (setArchiveRole 5) twoGuildStore
      ⟨defaultConfig 42, by simp [twoGuildStore, loadPrefixCache], rfl⟩⟩

theorem utf8ByteSize_eq_zero_iff (s : String) : s.utf8ByteSize = 0 ↔ s = "" := by
  constructor
  · intro h
    cases s with
    | mk data =>
      cases data with
      | nil => rfl
      | cons ch cs =>
        have hpos := Char.utf8Size_pos ch
        simp only [String.utf8ByteSize, String.utf8ByteSize.go] at h
        omega
  · intro h
    rw [h]
    rfl

theorem SetPrefix_accepted [Inhabited P] [Inhabited S] (fnName : String) (id : Int)
    (p : String) (c : Config P A S) (h : removeSpaces p ≠ "") :
    SetPrefix fnName id p c =
      ((removeSpaces p, none),
        (GuildContext id (setPrefixOp fnName (removeSpaces p))
          { c with PrefixCache := c.PrefixCache.set id (removeSpaces p) }).1) := by
  have hne : ¬ (removeSpaces p).utf8ByteSize = 0 := fun h0 =>
    h ((utf8ByteSize_eq_zero_iff _).mp h0)
  unfold SetPrefix
  simp [hne]

theorem GuildContext_keeps_consistent [Inhabited P] [Inhabited S] (id : Int)
    (m : guildOperation P A S) (c : Config P A S) (hid : keepsID m) (hp : keepsPrefix m)
    (hc : CacheConsistent c) : CacheConsistent (GuildContext id m c).1 := by
  by_cases h : ∃ x ∈ c.GuildConfigs, x.ID = id
  · obtain ⟨pre, x, post, hsplit, hx, hpre⟩ := exists_first_with_id id c.GuildConfigs h
    rw [GuildContext_found id m c pre x post hsplit hx hpre]
    intro y hy
    simp only [List.mem_append, List.mem_cons] at hy
    have hxin : x ∈ c.GuildConfigs := by rw [hsplit]; simp
    rcases hy with hy | rfl | hy
    · exact hc y (by rw [hsplit]; simp [hy])
    · show c.PrefixCache (m x).1.ID = some (m x).1.Prefix
      rw [hid x, hp x]
      exact hc x hxin
    · exact hc y (by rw [hsplit]; simp [hy])
  · have habs : ∀ x ∈ c.GuildConfigs, x.ID ≠ id := fun x hx hxid => h ⟨x, hx, hxid⟩
    rw [GuildContext_absent id m c habs]
    intro y hy
    simp only [List.mem_append, List.mem_singleton] at hy
    show (c.PrefixCache.set id DefaultPrefix) y.ID = some y.Prefix
    rcases hy with hy | rfl
    · have hne : y.ID ≠ id := habs y hy
      simp only [PrefixMap.set, hne, if_false]
      exact hc y hy
    · rw [hid (defaultConfig id), hp (defaultConfig id)]
      simp [PrefixMap.set, defaultConfig]

theorem SetPrefix_known_guild_consistent [Inhabited P] [Inhabited S] (fnName : String)
    (id : Int) (p : String) (c : Config P A S) (h : removeSpaces p ≠ "")
    (hex : ∃ x ∈ c.GuildConfigs, x.ID = id) (hu : UniqueIDs c.GuildConfigs)
    (hc : CacheConsistent c) :
    (SetPrefix fnName id p c).1 = (removeSpaces p, none) ∧
    (SetPrefix fnName id p c).2.PrefixCache id = some (removeSpaces p) ∧
    (∃ x ∈ (SetPrefix fnName id p c).2.GuildConfigs, x.ID = id ∧ x.Prefix = removeSpaces p) ∧
    CacheConsistent (SetPrefix fnName id p c).2 := by
  obtain ⟨pre, x, post, hsplit, hx, hpre⟩ := exists_first_with_id id c.GuildConfigs hex
  rw [SetPrefix_accepted fnName id p c h]
  rw [GuildContext_found id (setPrefixOp fnName (removeSpaces p))
    { c with PrefixCache := c.PrefixCache.set id (removeSpaces p) } pre x post hsplit hx hpre]
  have hnd : (List.map (fun g => g.ID) (pre ++ x :: post)).Nodup := by
    have := hu
    unfold UniqueIDs at this
    rwa [hsplit] at this
  simp only [List.map_append, List.map_cons] at hnd
  have hpost : ∀ y ∈ post, y.ID ≠ id := by
    intro y hy hyid
    have h2 := (List.nodup_append.mp hnd).2.1
    have h3 := (List.nodup_cons.mp h2).1
    apply h3
    rw [hx, ← hyid]
    exact List.mem_map_of_mem _ hy
  refine ⟨rfl, by simp [PrefixMap.set], ⟨(setPrefixOp fnName (removeSpaces p) x).1, by simp, hx, rfl⟩, ?_⟩
  intro y hy
  simp only [List.mem_append, List.mem_cons] at hy
  show (c.PrefixCache.set id (removeSpaces p)) y.ID = some y.Prefix
  rcases hy with hy | rfl | hy
  · have hne : y.ID ≠ id := hpre y hy
    simp only [PrefixMap.set, hne, if_false]
    exact hc y (by rw [hsplit]; simp [hy])
  · simp [PrefixMap.set, setPrefixOp, hx]
  · have hne : y.ID ≠ id := hpost y hy
    simp only [PrefixMap.set, hne, if_false]
    exact hc y (by rw [hsplit]; simp [hy])

theorem SetPrefix_unknown_guild [Inhabited P] [Inhabited S] (fnName : String)
    (id : Int) (p : String) (c : Config P A S) (h : removeSpaces p ≠ "")
    (habs : ∀ x ∈ c.GuildConfigs, x.ID ≠ id) :
    (SetPrefix fnName id p c).1 = (removeSpaces p, none) ∧
    (SetPrefix fnName id p c).2.PrefixCache id = some DefaultPrefix ∧
    (SetPrefix fnName id p c).2.GuildConfigs =
      c.GuildConfigs ++ [{ (defaultConfig id) with Prefix := removeSpaces p }] := by
  rw [SetPrefix_accepted fnName id p c h]
  rw [GuildContext_absent id (setPrefixOp fnName (removeSpaces p))
    { c with PrefixCache := c.PrefixCache.set id (removeSpaces p) } habs]
  refine ⟨rfl, by simp [PrefixMap.set], rfl⟩

/-- C1 at the failing input: on the freshly loaded empty store (which is cache-consistent)
`SetPrefix` for guild 42 with `!` returns `!` without error and stores the config of id 42
with prefix `!`, yet the cache entry for 42 is the default prefix `.`: the not-found
branch of `GuildContext` overwrites the entry `SetPrefix` has just written.  The store
reached is not cache-consistent. -/
theorem SetPrefix_new_guild_cache_stale :
    CacheConsistent freshStore ∧
    (SetPrefix "prefix" 42 "!" freshStore).1 = ("!", none) ∧
    (SetPrefix "prefix" 42 "!" freshStore).2.GuildConfigs =
      [{ (defaultConfig 42) with Prefix := "!" }] ∧
    (SetPrefix "prefix" 42 "!" freshStore).2.PrefixCache 42 = some "." ∧
    ¬ CacheConsistent (SetPrefix "prefix" 42 "!" freshStore).2 := by
  refine ⟨?_, by decide, by decide, by decide, ?_⟩
  · intro g hg
    simp [freshStore, loadPrefixCache, emptyStore] at hg
  · intro hc
    have h1 := hc { (defaultConfig 42) with Prefix := "!" } (by decide)
    revert h1
    decide

/-- C2 as amended (lazy creation idempotence): for a guild id `g` absent from the store
and an operation `m` that keeps the id of the config it is given, `GuildContext g m`
appends exactly one config; a second `GuildContext g m2` then takes the found branch,
rewrites that same last slot and does not grow the list.  A store with at most one
config per id keeps that property under any sequence of `GuildContext` calls whose
operations keep the id. -/
theorem GuildContext_lazy_creation_idempotent [Inhabited P] [Inhabited S] (g : Int)
    (m m2 : guildOperation P A S) (ops : List (Int × guildOperation P A S)) (c : Config P A S)
    (habs : ∀ x ∈ c.GuildConfigs, x.ID ≠ g) (hm : keepsID m)
    (hops : ∀ op ∈ ops, keepsID op.2) :
    (GuildContext g m c).1.GuildConfigs = c.GuildConfigs ++ [(m (defaultConfig g)).1] ∧
    (GuildContext g m c).1.GuildConfigs.length = c.GuildConfigs.length + 1 ∧
    (GuildContext g m2 (GuildContext g m c).1).1.GuildConfigs =
      c.GuildConfigs ++ [(m2 (m (defaultConfig g)).1).1] ∧
    (GuildContext g m2 (GuildContext g m c).1).2 = some (m2 (m (defaultConfig g)).1).2 ∧
    (GuildContext g m2 (GuildContext g m c).1).1.GuildConfigs.length =
      (GuildContext g m c).1.GuildConfigs.length ∧
    (UniqueIDs c.GuildConfigs → UniqueIDs (runContexts ops c).GuildConfigs) := by
  have h1 := GuildContext_absent g m c habs
  have hid : (m (defaultConfig g)).1.ID = g := by rw [hm (defaultConfig g)]; rfl
  have h2 := GuildContext_found g m2 (GuildContext g m c).1 c.GuildConfigs
    (m (defaultConfig g)).1 [] (by rw [h1]) hid habs
  refine ⟨by rw [h1], by rw [h1]; simp, by rw [h2], by rw [h2], ?_, ?_⟩
  · rw [h2, h1]; simp
  · exact runContexts_keeps_unique ops c hops

/-- Witness for C2 as amended: guild 42 on the empty store, two operations that keep the id. -/
theorem GuildContext_lazy_creation_idempotent_witness :
    (GuildContext 42 (setArchiveRole 5) freshStore).1.GuildConfigs =
      freshStore.GuildConfigs ++ [(setArchiveRole 5 (defaultConfig 42)).1] ∧
    (GuildContext 42 (setArchiveRole 5) freshStore).1.GuildConfigs.length =
      freshStore.GuildConfigs.length + 1 ∧
    (GuildContext 42 (setPrefixOp "prefix" "!")
        (GuildContext 42 (setArchiveRole 5) freshStore).1).1.GuildConfigs =
      freshStore.GuildConfigs ++
        [(setPrefixOp "prefix" "!" (setArchiveRole 5 (defaultConfig 42)).1).1] ∧
    (GuildContext 42 (setPrefixOp "prefix" "!")
        (GuildContext 42 (setArchiveRole 5) freshStore).1).2 =
      some (setPrefixOp "prefix" "!"
        (setArchiveRole 5 (defaultConfig 42 : GuildConfig Unit Unit Unit)).1).2 ∧
    (GuildContext 42 (setPrefixOp "prefix" "!")
        (GuildContext 42 (setArchiveRole 5) freshStore).1).1.GuildConfigs.length =
      (GuildContext 42 (setArchiveRole 5) freshStore).1.GuildConfigs.length ∧
    (UniqueIDs freshStore.GuildConfigs →
      UniqueIDs (runContexts [(42, setArchiveRole 5), (7, setArchiveRole 1), (42, setArchiveRole 2)]
        freshStore).GuildConfigs) :=
  GuildContext_lazy_creation_idempotent 42 (setArchiveRole 5) (setPrefixOp "prefix" "!")
    [(42, setArchiveRole 5), (7, setArchiveRole 1), (42, setArchiveRole 2)] freshStore
    (by intro x hx; simp [freshStore, loadPrefixCache, emptyStore] at hx)
    (fun _ => rfl)
    (by intro op hop; simp at hop; rcases hop with rfl | rfl | rfl <;> exact fun _ => rfl)

/-- Counterexample to C2 as stated: the operation `renumber 7` stores id 7.  On the empty
store `GuildContext 42 (renumber 7)` appends one config, but it is filed under id 7, so a
second `GuildContext 42` call finds no entry for 42 and appends again: the list grows to
two entries, both with id 7. -/
theorem GuildContext_lazy_creation_renumber_counterexample :
    (∀ x ∈ freshStore.GuildConfigs, x.ID ≠ 42) ∧
    (GuildContext 42 (renumber 7) freshStore).1.GuildConfigs.length = 1 ∧
    (GuildContext 42 (renumber 7) (GuildContext 42 (renumber 7) freshStore).1).1.GuildConfigs.length = 2 ∧
    (GuildContext 42 (renumber 7) (GuildContext 42 (renumber 7) freshStore).1).2 = none ∧
    UniqueIDs freshStore.GuildConfigs ∧
    ¬ UniqueIDs (runContexts [(42, renumber 7), (42, renumber 7)] freshStore).GuildConfigs := by
  refine ⟨?_, by decide, by decide, by decide, ?_, ?_⟩
  · intro x hx; simp [freshStore, loadPrefixCache, emptyStore] at hx
  · unfold UniqueIDs; decide
  · unfold UniqueIDs; decide

/-- C3 (validation error leaves the store unchanged): when the prefix is empty once its
spaces are removed, `SetPrefix` returns the empty string with the error
`GenericError(fnName, "getting prefix", "prefix is empty")` and the store, `GuildConfigs`
and `PrefixCache` included, is exactly the one it was called on. -/
theorem SetPrefix_blank_rejected [Inhabited P] [Inhabited S] (fnName : String) (id : Int)
    (p : String) (c : Config P A S) (h : removeSpaces p = "") :
    SetPrefix fnName id p c =
      (("", some (TaroError.GenericError fnName "getting prefix" "prefix is empty")), c) := by
  unfold SetPrefix
  simp [h]
  rfl

/-- Witness for C3, the scenario of the specification: on the empty store `SetPrefix` for
guild 42 with `!` stores the config of id 42 and prefix `!`; `SetPrefix` for guild 42 with
the empty prefix then returns the error and the stored prefix is still `!`. -/
theorem SetPrefix_blank_rejected_witness :
    removeSpaces "" = "" ∧
    (SetPrefix "prefix" 42 "!" freshStore).1 = ("!", none) ∧
    (SetPrefix "prefix" 42 "!" freshStore).2.GuildConfigs =
      [{ (defaultConfig 42) with Prefix := "!" }] ∧
    SetPrefix "prefix" 42 "" (SetPrefix "prefix" 42 "!" freshStore).2 =
      (("", some (TaroError.GenericError "prefix" "getting prefix" "prefix is empty")),
        (SetPrefix "prefix" 42 "!" freshStore).2) ∧
    (SetPrefix "prefix" 42 "" (SetPrefix "prefix" 42 "!" freshStore).2).2.GuildConfigs.map
      (fun g => (g.ID, g.Prefix)) = [(42, "!")] :=
  ⟨by decide, by decide, by decide,
    SetPrefix_blank_rejected "prefix" 42 "" (SetPrefix "prefix" 42 "!" freshStore).2 (by decide),
    by decide⟩

theorem loadPrefixes_absent (m : PrefixMap) (gs : List (GuildConfig P A S)) (k : Int)
    (h : ∀ g ∈ gs, g.ID ≠ k) : loadPrefixes m gs k = m k := by
  induction gs generalizing m with
  | nil => rfl
  | cons x rest ih =>
    have hx : x.ID ≠ k := h x (List.mem_cons_self _ _)
    have hr : ∀ g ∈ rest, g.ID ≠ k := fun g hg => h g (List.mem_cons_of_mem _ hg)
    show loadPrefixes (m.set x.ID x.Prefix) rest k = m k
    rw [ih (m.set x.ID x.Prefix) hr]
    simp [PrefixMap.set, Ne.symm hx]

theorem loadPrefixes_isSome (m : PrefixMap) (gs : List (GuildConfig P A S)) (k : Int) :
    (loadPrefixes m gs k).isSome = true ↔ (m k).isSome = true ∨ ∃ g ∈ gs, g.ID = k := by
  induction gs generalizing m with
  | nil => simp [loadPrefixes]
  | cons x rest ih =>
    show (loadPrefixes (m.set x.ID x.Prefix) rest k).isSome = true ↔ _
    rw [ih (m.set x.ID x.Prefix)]
    by_cases hk : k = x.ID
    · subst hk
      simp [PrefixMap.set]
    · have hk2 : ¬ x.ID = k := fun h => hk h.symm
      simp [PrefixMap.set, hk, hk2]

theorem loadPrefixes_unique (m : PrefixMap) (gs : List (GuildConfig P A S))
    (hu : UniqueIDs gs) (g : GuildConfig P A S) (hg : g ∈ gs) :
    loadPrefixes m gs g.ID = some g.Prefix := by
  induction gs generalizing m with
  | nil => cases hg
  | cons x rest ih =>
    unfold UniqueIDs at hu
    simp only [List.map_cons, List.nodup_cons] at hu
    show loadPrefixes (m.set x.ID x.Prefix) rest g.ID = some g.Prefix
    rcases List.mem_cons.mp hg with rfl | hmem
    · have hr : ∀ y ∈ rest, y.ID ≠ g.ID := by
        intro y hy hyid
        exact hu.1 (by rw [← hyid]; exact List.mem_map_of_mem _ hy)
      rw [loadPrefixes_absent _ rest g.ID hr]
      simp [PrefixMap.set]
    · exact ih (m.set x.ID x.Prefix) hu.2 hmem

/-- C8 (prefix cache rebuild on load): after the prefix-cache step of `LoadConfig` the
keys of `PrefixCache` are exactly the ids occurring in `GuildConfigs`; the cache does not
depend on what it held before; `GuildConfigs` is untouched; and when no id occurs twice
the cache maps the id of every guild config to its prefix. -/
theorem loadPrefixCache_rebuilds (c : Config P A S) (stale : PrefixMap) :
    (∀ k, ((loadPrefixCache c).PrefixCache k).isSome = true ↔ ∃ g ∈ c.GuildConfigs, g.ID = k) ∧
    (loadPrefixCache { c with PrefixCache := stale }).PrefixCache =
      (loadPrefixCache c).PrefixCache ∧
    (loadPrefixCache c).GuildConfigs = c.GuildConfigs ∧
    (UniqueIDs c.GuildConfigs →
      ∀ g ∈ c.GuildConfigs, (loadPrefixCache c).PrefixCache g.ID = some g.Prefix) := by
  refine ⟨?_, rfl, rfl, ?_⟩
  · intro k
    show (loadPrefixes PrefixMap.empty c.GuildConfigs k).isSome = true ↔ _
    rw [loadPrefixes_isSome]
    simp [PrefixMap.empty]
  · intro hu g hg
    exact loadPrefixes_unique PrefixMap.empty c.GuildConfigs hu g hg

/-- Witness for C8: the store loaded with guilds 7 and 42 has no duplicate id, and its
cache holds the prefix of guild 42 and no entry for guild 8. -/
theorem loadPrefixCache_rebuilds_witness :
    UniqueIDs twoGuildStore.GuildConfigs ∧
    (loadPrefixCache twoGuildStore).PrefixCache 42 = some "." ∧
    ((loadPrefixCache twoGuildStore).PrefixCache 8).isSome = false :=
  ⟨by unfold UniqueIDs; decide,
    (loadPrefixCache_rebuilds twoGuildStore PrefixMap.empty).2.2.2 (by unfold UniqueIDs; decide)
      (defaultConfig 42) (by decide),
    by decide⟩

end ConfigTheorems

section RegistryTheorems

variable {Cmd Resp Fn Job σ : Type}

theorem RegisterJobs_loop_traced (api : SchedulerAPI σ Fn Job) (jobs : List (JobInfo Fn))
    (s : σ) (tr : List (String × Fn)) :
    (RegisterJobs.loop api.traced jobs (s, tr)).1 =
        ((RegisterJobs.loop api jobs s).1,
          tr ++ (jobs.filter JobInfo.passes).map JobInfo.call) ∧
      (RegisterJobs.loop api.traced jobs (s, tr)).2 = (RegisterJobs.loop api jobs s).2 := by
  induction jobs generalizing s tr with
  | nil => simp [RegisterJobs.loop]
  | cons job rest ih =>
    by_cases hp : (!job.CheckCondition || job.Condition) = true
    · have hp2 : job.passes = true := hp
      cases hdo : api.TagDo job.Tag job.Fn s with
      | mk res s1 =>
        have ht : api.traced.TagDo job.Tag job.Fn (s, tr) = (res, (s1, tr ++ [(job.Tag, job.Fn)])) := by
          simp [SchedulerAPI.traced, hdo]
        cases res with
        | error err =>
          simp only [RegisterJobs.loop, hp, if_true, ht, hdo]
          rw [(ih s1 (tr ++ [(job.Tag, job.Fn)])).1, (ih s1 (tr ++ [(job.Tag, job.Fn)])).2]
          simp [List.filter_cons, hp2, JobInfo.call]
        | ok rJob =>
          simp only [RegisterJobs.loop, hp, if_true, ht, hdo]
          rw [(ih s1 (tr ++ [(job.Tag, job.Fn)])).1, (ih s1 (tr ++ [(job.Tag, job.Fn)])).2]
          simp [List.filter_cons, hp2, JobInfo.call]
    · have hp2 : ¬ job.passes = true := hp
      simp only [RegisterJobs.loop, hp, Bool.false_eq_true, if_false]
      rw [(ih s tr).1, (ih s tr).2]
      simp [List.filter_cons, hp2]

/-- C5 (conditional job skip): run against any scheduler, instrumented to record its
registration calls, `RegisterJobs` makes exactly the calls `Tag(job.Tag).Do(job.Fn)` for
the jobs with `CheckCondition = false` or `Condition = true`, in list order and whatever
each registration returns; none of those jobs has `CheckCondition = true` and
`Condition = false`.  The instrumentation changes neither the scheduler nor the log, and
`Jobs` is left as it was. -/
theorem RegisterJobs_calls_exactly_passing (api : SchedulerAPI σ Fn Job)
    (b : Registry Cmd Resp Fn (σ × List (String × Fn))) :
    (RegisterJobs api.traced b).1.Scheduler.2 =
      b.Scheduler.2 ++ (b.Jobs.filter (fun j => !j.CheckCondition || j.Condition)).map JobInfo.call ∧
    (∀ j ∈ b.Jobs.filter (fun j => !j.CheckCondition || j.Condition),
      ¬ (j.CheckCondition = true ∧ j.Condition = false)) ∧
    (∀ j ∈ b.Jobs, j.CheckCondition = true → j.Condition = false →
      j ∉ b.Jobs.filter (fun j => !j.CheckCondition || j.Condition)) ∧
    (RegisterJobs api.traced b).1.Scheduler.1 =
      (RegisterJobs.loop api b.Jobs b.Scheduler.1).1 ∧
    (RegisterJobs api.traced b).2 = (RegisterJobs.loop api b.Jobs b.Scheduler.1).2 ∧
    (RegisterJobs api.traced b).1.Jobs = b.Jobs := by
  have h := RegisterJobs_loop_traced api b.Jobs b.Scheduler.1 b.Scheduler.2
  refine ⟨?_, ?_, ?_, ?_, ?_, rfl⟩
  · show (RegisterJobs.loop api.traced b.Jobs b.Scheduler).1.2 = _
    have : b.Scheduler = (b.Scheduler.1, b.Scheduler.2) := rfl
    rw [this, h.1]
    rfl
  · intro j hj
    have hp := (List.mem_filter.mp hj).2
    intro hc
    simp [hc.1, hc.2] at hp
  · intro j _ h1 h2 hj
    have hp := (List.mem_filter.mp hj).2
    simp [h1, h2] at hp
  · show (RegisterJobs.loop api.traced b.Jobs b.Scheduler).1.1 = _
    have : b.Scheduler = (b.Scheduler.1, b.Scheduler.2) := rfl
    rw [this, h.1]
  · show (RegisterJobs.loop api.traced b.Jobs b.Scheduler).2 = _
    have : b.Scheduler = (b.Scheduler.1, b.Scheduler.2) := rfl
    rw [this, h.2]

/-- Witness for C5: on a scheduler where every registration fails, the two passing jobs of
`sampleJobs` are both attempted, in order, and the job whose condition is not met is not. -/
theorem RegisterJobs_calls_exactly_passing_witness :
    (RegisterJobs failingScheduler.traced sampleRegistry).1.Scheduler.2 =
      sampleRegistry.Scheduler.2 ++
        (sampleRegistry.Jobs.filter (fun j => !j.CheckCondition || j.Condition)).map JobInfo.call ∧
    (RegisterJobs failingScheduler.traced sampleRegistry).1.Scheduler.2 =
      [("tick", 1), ("sync", 2)] ∧
    (RegisterJobs failingScheduler.traced sampleRegistry).2 =
      [LogLine.failedToRegister "tick" "scheduler is closed",
       LogLine.failedToRegister "sync" "scheduler is closed"] :=
  ⟨(RegisterJobs_calls_exactly_passing failingScheduler sampleRegistry).1, by decide, by decide⟩

theorem ClearJobs_loop_filter (api : SchedulerAPI (List (String × Fn)) Fn Job)
    (hrm : ∀ tag s, (api.RemoveByTag tag s).2 = s.filter (fun e => decide (e.1 ≠ tag)))
    (jobs : List (JobInfo Fn)) (s : List (String × Fn)) :
    ClearJobs.loop api jobs s =
      s.filter (fun e => decide (e.1 ∉ jobs.map JobInfo.Tag)) := by
  induction jobs generalizing s with
  | nil => simp [ClearJobs.loop]
  | cons job rest ih =>
    show ClearJobs.loop api rest (api.RemoveByTag job.Tag s).2 = _
    rw [hrm, ih, List.filter_filter]
    apply List.filter_congr
    intro e _
    simp only [List.map_cons, List.mem_cons, not_or, Bool.decide_and, Bool.and_comm]

theorem filter_owned_eq_nil (jobs : List (JobInfo Fn)) (s : List (String × Fn))
    (h : ∀ e ∈ s, ∃ j ∈ jobs, j.Tag = e.1) :
    s.filter (fun e => decide (e.1 ∉ jobs.map JobInfo.Tag)) = [] := by
  rw [List.filter_eq_nil_iff]
  intro e he
  obtain ⟨j, hj, hje⟩ := h e he
  have : e.1 ∈ jobs.map JobInfo.Tag := by rw [← hje]; exact List.mem_map_of_mem _ hj
  simp [this]

theorem taggedScheduler_tagKeyed :
    tagKeyed (taggedScheduler : SchedulerAPI (List (String × Fn)) Fn (String × Fn)) :=
  ⟨fun _ _ => rfl, fun _ _ _ => Or.inl rfl⟩

theorem RegisterJobs_loop_state (api : SchedulerAPI σ Fn Job) (job : JobInfo Fn)
    (rest : List (JobInfo Fn)) (s : σ) :
    (RegisterJobs.loop api (job :: rest) s).1 =
      if job.passes then (RegisterJobs.loop api rest (api.TagDo job.Tag job.Fn s).2).1
      else (RegisterJobs.loop api rest s).1 := by
  by_cases hp : (!job.CheckCondition || job.Condition) = true
  · have hp2 : job.passes = true := hp
    cases hdo : api.TagDo job.Tag job.Fn s with
    | mk res s1 =>
      cases res with
      | error err => simp only [RegisterJobs.loop, hp, if_true, hdo, hp2]
      | ok rJob => simp only [RegisterJobs.loop, hp, if_true, hdo, hp2]
  · have hp2 : ¬ job.passes = true := hp
    simp only [RegisterJobs.loop, hp, Bool.false_eq_true, if_false, hp2]

theorem RegisterAll_from_owned (api : SchedulerAPI (List (String × Fn)) Fn Job)
    (hapi : tagKeyed api) (plugins : String → String → Loaded Cmd Resp Fn)
    (dir pluginList : String) (b : Registry Cmd Resp Fn (List (String × Fn)))
    (hown : ownsScheduled b) :
    RegisterAll api plugins dir pluginList b =
      ({ Commands := (plugins dir pluginList).Commands
         Responses := (plugins dir pluginList).Responses
         Jobs := (plugins dir pluginList).Jobs
         Scheduler := (RegisterJobs.loop api (plugins dir pluginList).Jobs []).1 },
        (RegisterJobs.loop api (plugins dir pluginList).Jobs []).2) := by
  simp only [RegisterAll, RegisterJobs, Load, ClearJobs, List.nil_append]
  rw [ClearJobs_loop_filter api hapi.1, filter_owned_eq_nil b.Jobs b.Scheduler hown]

theorem RegisterJobs_loop_tagged_keeps (jobs : List (JobInfo Fn)) (s : List (String × Fn))
    (t : String)
    (h : t ∈ s.map Prod.fst ∨ ∃ j ∈ jobs, j.passes = true ∧ j.Tag = t) :
    t ∈ (RegisterJobs.loop taggedScheduler jobs s).1.map Prod.fst := by
  induction jobs generalizing s with
  | nil =>
    rcases h with h | ⟨j, hj, _⟩
    · exact h
    · cases hj
  | cons job rest ih =>
    rw [RegisterJobs_loop_state]
    by_cases hp : job.passes = true
    · simp only [hp, if_true]
      apply ih
      by_cases ht : job.Tag = t
      · left
        show t ∈ (s.filter (fun e => decide (e.1 ≠ job.Tag)) ++ [(job.Tag, job.Fn)]).map Prod.fst
        simp [ht]
      · rcases h with h | ⟨j, hj, hjp, hjt⟩
        · left
          show t ∈ (s.filter (fun e => decide (e.1 ≠ job.Tag)) ++ [(job.Tag, job.Fn)]).map Prod.fst
          obtain ⟨e, he, het⟩ := List.mem_map.mp h
          have hne : e.1 ≠ job.Tag := by rw [het]; exact fun hh => ht hh.symm
          rw [List.map_append]
          exact List.mem_append_left _
            (List.mem_map.mpr ⟨e, List.mem_filter.mpr ⟨he, by simpa using hne⟩, het⟩)
        · rcases List.mem_cons.mp hj with rfl | hmem
          · exact absurd hjt ht
          · exact Or.inr ⟨j, hmem, hjp, hjt⟩
    · simp only [hp, Bool.false_eq_true, if_false]
      apply ih
      rcases h with h | ⟨j, hj, hjp, hjt⟩
      · exact Or.inl h
      · rcases List.mem_cons.mp hj with rfl | hmem
        · exact absurd hjp hp
        · exact Or.inr ⟨j, hmem, hjp, hjt⟩

theorem RegisterAll_tagged_schedules_passing (plugins : String → String → Loaded Cmd Resp Fn)
    (dir pluginList : String) (b : Registry Cmd Resp Fn (List (String × Fn)))
    (hown : ownsScheduled b) (j : JobInfo Fn) (hj : j ∈ (plugins dir pluginList).Jobs)
    (hp : j.passes = true) :
    j.Tag ∈ (RegisterAll taggedScheduler plugins dir pluginList b).1.Scheduler.map Prod.fst := by
  rw [RegisterAll_from_owned taggedScheduler taggedScheduler_tagKeyed plugins dir pluginList b hown]
  exact RegisterJobs_loop_tagged_keeps _ [] j.Tag (Or.inr ⟨j, hj, hp, rfl⟩)

end RegistryTheorems

section CommandArgsTheorems

theorem index_in_bounds (a : List String) (i : Int) (h0 : 0 ≤ i) (hlt : i < a.length) :
    ∃ s, index a i = some s := by
  have hn : i.toNat < a.length := by omega
  exact ⟨a.get ⟨i.toNat, hn⟩, by simp only [index, h0, if_true]; exact List.get?_eq_get hn⟩

theorem checkArgExists_never_panics (a : List String) (pos : Int) (fn : String) :
    (checkArgExists a pos fn).isSome = true := by
  have key : ∀ p2 : Int, 0 ≤ p2 →
      (if (a.length : Int) > p2 then
        (match index a p2 with
          | some s => some (s, (none : Option TaroError))
          | none => none)
      else
        some ("", some (TaroError.GenericError fn ("getting arg " ++ Itoa (wrapInt (p2 + 1)))
          "arg is missing"))).isSome = true := by
    intro p2 h0
    by_cases hlen : (a.length : Int) > p2
    · obtain ⟨s, hs⟩ := index_in_bounds a p2 h0 hlen
      simp [hlen, hs]
    · simp [hlen]
  have h0 : 0 ≤ (if wrapInt (pos - 1) < 0 then (1 : Int) else wrapInt (pos - 1)) := by
    split <;> omega
  unfold checkArgExists
  exact key _ h0

theorem checkArgExists_in_range (a : List String) (pos : Int) (fn : String)
    (h1 : 1 ≤ pos) (h2 : pos ≤ a.length) (hint : pos < 9223372036854775808) :
    ∃ s, a.get? (pos - 1).toNat = some s ∧ checkArgExists a pos fn = some (s, none) := by
  have hw : wrapInt (pos - 1) = pos - 1 := by unfold wrapInt; omega
  have hlt : (pos - 1).toNat < a.length := by omega
  refine ⟨a.get ⟨(pos - 1).toNat, hlt⟩, List.get?_eq_get hlt, ?_⟩
  unfold checkArgExists
  have hneg : ¬ (pos - 1 < 0) := by omega
  have hlen : (a.length : Int) > pos - 1 := by omega
  have h0 : (0 : Int) ≤ pos - 1 := by omega
  simp only [hw, hneg, if_false, hlen, if_true, index, h0]
  rw [List.get?_eq_get hlt]

theorem checkArgExists_beyond (a : List String) (pos : Int) (fn : String)
    (h1 : (a.length : Int) < pos) (hint : pos < 9223372036854775808) :
    checkArgExists a pos fn =
      some ("", some (TaroError.GenericError fn ("getting arg " ++ Itoa pos) "arg is missing")) := by
  have hw : wrapInt (pos - 1) = pos - 1 := by unfold wrapInt; omega
  have hw2 : wrapInt (pos - 1 + 1) = pos := by unfold wrapInt; omega
  unfold checkArgExists
  have hneg : ¬ (pos - 1 < 0) := by omega
  have hlen : ¬ ((a.length : Int) > pos - 1) := by omega
  simp only [hw, hneg, if_false, hlen, hw2]

theorem checkArgExists_nonpositive (a : List String) (pos : Int) (fn : String)
    (h1 : pos ≤ 0) (hint : -9223372036854775808 < pos) :
    checkArgExists a pos fn =
      match a.get? 1 with
      | some s => some (s, none)
      | none => some ("", some (TaroError.GenericError fn ("getting arg " ++ Itoa 2) "arg is missing")) := by
  have hw : wrapInt (pos - 1) = pos - 1 := by unfold wrapInt; omega
  have hw2 : wrapInt (1 + 1) = 2 := by decide
  unfold checkArgExists
  have hneg : pos - 1 < 0 := by omega
  simp only [hw, hneg, if_true, hw2]
  by_cases hlen : (a.length : Int) > 1
  · have hlt : 1 < a.length := by omega
    have hs : a[1]? = some a[1] := List.getElem?_eq_getElem hlt
    simp [hlen, index, hs]
  · have hge : a.length ≤ 1 := by omega
    simp only [hlen, if_false]
    rw [List.get?_eq_none.mpr hge]

/-- C9 at the failing input: for the arguments `x`, `y` and position 0 the index
`pos - 1 = -1` does not exist, yet `ParseStringArg` returns the second argument `y`
without an error: `checkArgExists` replaces the negative index by 1. -/
theorem ParseStringArg_position_zero_returns_second (ToLower : String → String) :
    ParseStringArg ToLower ["x", "y"] 0 false = some ("y", none) := by
  have h : checkArgExists ["x", "y"] 0 "ParseStringArg" = some ("y", none) := by decide
  simp [ParseStringArg, h]

theorem ParseStringArg_in_range (ToLower : String → String) (a : List String) (pos : Int)
    (h1 : 1 ≤ pos) (h2 : pos ≤ a.length) (hint : pos < 9223372036854775808) :
    ∃ s, a.get? (pos - 1).toNat = some s ∧
      ParseStringArg ToLower a pos false = some (s, none) := by
  obtain ⟨s, hs, hc⟩ := checkArgExists_in_range a pos "ParseStringArg" h1 h2 hint
  exact ⟨s, hs, by simp [ParseStringArg, hc]⟩

theorem ParseStringArg_beyond (ToLower : String → String) (a : List String) (pos : Int)
    (h1 : (a.length : Int) < pos) (hint : pos < 9223372036854775808) :
    ParseStringArg ToLower a pos false =
      some ("", some (TaroError.GenericError "ParseStringArg" ("getting arg " ++ Itoa pos)
        "arg is missing")) := by
  simp [ParseStringArg, checkArgExists_beyond a pos "ParseStringArg" h1 hint]

theorem ParseStringArg_never_panics (ToLower : String → String) (a : List String) (pos : Int)
    (toLower : Bool) : (ParseStringArg ToLower a pos toLower).isSome = true := by
  have h := checkArgExists_never_panics a pos "ParseStringArg"
  unfold ParseStringArg
  cases hc : checkArgExists a pos "ParseStringArg" with
  | none => rw [hc] at h; cases h
  | some r =>
    obtain ⟨s, e⟩ := r
    cases e with
    | none => cases toLower <;> rfl
    | some err => rfl

theorem checkArgExists_first (s : String) (rest : List String) (fn : String) :
    checkArgExists (s :: rest) 1 fn = some (s, none) := by
  have hw : wrapInt 0 = 0 := by decide
  have hpos : (0 : Int) < (rest.length : Int) + 1 := by omega
  unfold checkArgExists
  simp [hw, index, hpos]

theorem digit_toNat (c : Char) (h : isDecimalDigit c = true) : 48 ≤ c.toNat ∧ c.toNat ≤ 57 := by
  simpa [isDecimalDigit] using h

theorem dropDigits_digits_append (ds : List Char) (t : List Char)
    (hd : ∀ c ∈ ds, isDecimalDigit c = true) : dropDigits (ds ++ '>' :: t) = '>' :: t := by
  induction ds with
  | nil => simp [dropDigits]
  | cons c cs ih =>
    have hc := digit_toNat c (hd c (List.mem_cons_self _ _))
    have hr : ∀ x ∈ cs, isDecimalDigit x = true := fun x hx => hd x (List.mem_cons_of_mem _ hx)
    simp [dropDigits, hc, ih hr]

theorem ParseUint_loop_digits (ds : List Char) (n : Nat)
    (hd : ∀ c ∈ ds, isDecimalDigit c = true)
    (hr : ds.foldl (fun acc c => acc * 10 + (c.toNat - 48)) n ≤ 18446744073709551615) :
    ParseUint.loop ds n = Except.ok (ds.foldl (fun acc c => acc * 10 + (c.toNat - 48)) n) := by
  induction ds generalizing n with
  | nil => rfl
  | cons c cs ih =>
    have hc := digit_toNat c (hd c (List.mem_cons_self _ _))
    have hrest : ∀ x ∈ cs, isDecimalDigit x = true := fun x hx => hd x (List.mem_cons_of_mem _ hx)
    have hmono : ∀ (l : List Char) (m : Nat), m ≤ l.foldl (fun acc c => acc * 10 + (c.toNat - 48)) m := by
      intro l
      induction l with
      | nil => intro m; exact Nat.le_refl _
      | cons x xs ihx =>
        intro m
        simp only [List.foldl_cons]
        have := ihx (m * 10 + (x.toNat - 48))
        omega
    simp only [List.foldl_cons] at hr ⊢
    have hle := hmono cs (n * 10 + (c.toNat - 48))
    have hnot : ¬ (n * 10 + (c.toNat - 48) > 18446744073709551615) := by omega
    simp only [ParseUint.loop, hc, and_self, if_true, hnot, if_false]
    exact ih _ hrest hr

theorem ParseInt_digits (d : Char) (more : List Char)
    (hd : ∀ c ∈ d :: more, isDecimalDigit c = true)
    (hr : digitsValue (d :: more) < 9223372036854775808) :
    ParseInt (String.mk (d :: more)) = Except.ok (digitsValue (d :: more) : Int) := by
  have hc := digit_toNat d (hd d (List.mem_cons_self _ _))
  have hplus : d ≠ '+' := by
    intro h; rw [h] at hc; revert hc; decide
  have hminus : d ≠ '-' := by
    intro h; rw [h] at hc; revert hc; decide
  have hloop := ParseUint_loop_digits (d :: more) 0 hd (by unfold digitsValue at hr; omega)
  have hnr : ¬ (digitsValue (d :: more) ≥ 9223372036854775808) := by omega
  unfold ParseInt
  simp only [hplus, hminus, or_self, if_false, ParseUint, hloop, decide_False]
  unfold digitsValue at hnr ⊢
  simp [hnr]
  simpa [digitsValue] using hr

theorem filter_mention_digits (ds : List Char) (hd : ∀ c ∈ ds, isDecimalDigit c = true) :
    ds.filter (fun c => decide ¬ (c = '<' ∨ c = '@' ∨ c = '!' ∨ c = '#' ∨ c = '&' ∨ c = '>')) = ds := by
  rw [List.filter_eq_self]
  intro c hc
  have h := digit_toNat c (hd c hc)
  have h1 : c ≠ '<' := by intro e; rw [e] at h; revert h; decide
  have h2 : c ≠ '@' := by intro e; rw [e] at h; revert h; decide
  have h3 : c ≠ '!' := by intro e; rw [e] at h; revert h; decide
  have h4 : c ≠ '#' := by intro e; rw [e] at h; revert h; decide
  have h5 : c ≠ '&' := by intro e; rw [e] at h; revert h; decide
  have h6 : c ≠ '>' := by intro e; rw [e] at h; revert h; decide
  simp [h1, h2, h3, h4, h5, h6]

theorem optionalBang_digit (d : Char) (r : List Char) (hd : isDecimalDigit d = true) :
    pingRegex.optionalBang (d :: r) = d :: r := by
  have hc := digit_toNat d hd
  have hbang : d ≠ '!' := by intro e; rw [e] at hc; revert hc; decide
  unfold pingRegex.optionalBang
  split
  · rename_i heq
    simp only [List.cons.injEq] at heq
    exact absurd heq.1 hbang
  · rfl

theorem pingRegex_matchHere_mention (bang : Bool) (d : Char) (more t : List Char)
    (hd : ∀ c ∈ d :: more, isDecimalDigit c = true) :
    pingRegex.matchHere
      ('<' :: '@' :: ((if bang then ['!'] else []) ++ (d :: more ++ '>' :: t))) = true := by
  have hc := digit_toNat d (hd d (List.mem_cons_self _ _))
  have hr : ∀ x ∈ more, isDecimalDigit x = true := fun x hx => hd x (List.mem_cons_of_mem _ hx)
  have hopt : pingRegex.optionalBang ((if bang then ['!'] else []) ++ d :: (more ++ '>' :: t)) =
      d :: (more ++ '>' :: t) := by
    cases bang
    · exact optionalBang_digit d _ (hd d (List.mem_cons_self _ _))
    · rfl
  unfold pingRegex.matchHere
  simp [hopt, hc, dropDigits_digits_append more t hr]

theorem ParseUserArg_single_mention (bang : Bool) (d : Char) (more : List Char)
    (rest : List String) (hd : ∀ c ∈ d :: more, isDecimalDigit c = true)
    (hr : digitsValue (d :: more) < 9223372036854775808) :
    userMentionID (String.mk ('<' :: '@' :: ((if bang then ['!'] else []) ++ (d :: more ++ ['>'])))) =
      some (digitsValue (d :: more)) ∧
    ParseUserArg
      (String.mk ('<' :: '@' :: ((if bang then ['!'] else []) ++ (d :: more ++ ['>']))) :: rest) 1 =
      some ((digitsValue (d :: more) : Int), none) := by
  constructor
  · have hc := digit_toNat d (hd d (List.mem_cons_self _ _))
    have hopt : pingRegex.optionalBang ((if bang then ['!'] else []) ++ (d :: more ++ ['>'])) =
        (d :: more) ++ ['>'] := by
      cases bang
      · exact optionalBang_digit d _ (hd d (List.mem_cons_self _ _))
      · rfl
    have hgt : isDecimalDigit '>' = false := by decide
    have htake : ((d :: more) ++ ['>']).takeWhile isDecimalDigit = d :: more := by
      rw [List.takeWhile_append_of_pos]
      · simp [List.takeWhile, hgt]
      · exact hd
    have hdrop : ((d :: more) ++ ['>']).dropWhile isDecimalDigit = ['>'] := by
      rw [List.dropWhile_append_of_pos]
      · simp [List.dropWhile, hgt]
      · exact hd
    unfold userMentionID
    simp only [hopt, htake, hdrop]
    simp
  · have hm := pingRegex_matchHere_mention bang d more [] hd
    have hfilter : mentionFormats.ReplaceAllString
        (String.mk ('<' :: '@' :: ((if bang then ['!'] else []) ++ (d :: more ++ ['>'])))) =
        String.mk (d :: more) := by
      unfold mentionFormats.ReplaceAllString
      have hsplit : ('<' :: '@' :: ((if bang then ['!'] else []) ++ (d :: more ++ ['>']))) =
          ['<', '@'] ++ ((if bang then ['!'] else []) ++ ((d :: more) ++ ['>'])) := rfl
      have h1 : List.filter
          (fun c => decide ¬ (c = '<' ∨ c = '@' ∨ c = '!' ∨ c = '#' ∨ c = '&' ∨ c = '>'))
          ['<', '@'] = [] := by decide
      have h2 : List.filter
          (fun c => decide ¬ (c = '<' ∨ c = '@' ∨ c = '!' ∨ c = '#' ∨ c = '&' ∨ c = '>'))
          (if bang then ['!'] else []) = [] := by cases bang <;> decide
      have h3 : List.filter
          (fun c => decide ¬ (c = '<' ∨ c = '@' ∨ c = '!' ∨ c = '#' ∨ c = '&' ∨ c = '>'))
          ['>'] = [] := by decide
      show String.mk (List.filter _ _) = _
      rw [hsplit, List.filter_append, List.filter_append, List.filter_append, h1, h2, h3,
        filter_mention_digits (d :: more) hd]
      simp
    unfold ParseUserArg
    rw [checkArgExists_first]
    simp only [pingRegex.MatchString, pingRegex.search, hm, Bool.true_or, if_true, hfilter,
      ParseInt_digits d more hd hr]

theorem ParseUserArg_error_is_minus_one (a : List String) (pos : Int) :
    ∃ r, ParseUserArg a pos = some r ∧ (r.2 = none ∨ r.1 = -1) := by
  have h := checkArgExists_never_panics a pos "ParseUserArg"
  unfold ParseUserArg
  cases hc : checkArgExists a pos "ParseUserArg" with
  | none => rw [hc] at h; cases h
  | some r =>
    obtain ⟨s, e⟩ := r
    cases e with
    | some err => exact ⟨_, rfl, Or.inr rfl⟩
    | none =>
      simp only
      split
      · split
        · exact ⟨_, rfl, Or.inr rfl⟩
        · exact ⟨_, rfl, Or.inl rfl⟩
      · exact ⟨_, rfl, Or.inr rfl⟩

/-- C10 at the failing input: the argument `<@12><@34>` is not a single user mention, yet
`ParseUserArg` returns 1234 without an error: the unanchored `pingRegex` finds a mention
inside the argument and every digit left once `<`, `@`, `!`, `#`, `&`, `>` are removed is
parsed as one number.  A single mention such as `<@!123>` gives its id. -/
theorem ParseUserArg_two_mentions_accepted :
    userMentionID "<@12><@34>" = none ∧
    ParseUserArg ["<@12><@34>"] 1 = some (1234, none) ∧
    userMentionID "<@!123>" = some 123 ∧
    ParseUserArg ["<@!123>"] 1 = some (123, none) := by
  refine ⟨by decide, by decide, by decide, by decide⟩

theorem ParseUserArg_digits_around_mention_accepted :
    userMentionID "1<@2>" = none ∧ ParseUserArg ["1<@2>"] 1 = some (12, none) ∧
    userMentionID "-<@2>" = none ∧ ParseUserArg ["-<@2>"] 1 = some (-2, none) := by
  refine ⟨by decide, by decide, by decide, by decide⟩

end CommandArgsTheorems

end Taro
